import Mathlib

/-
Verification of the videochat-ai backend (src/Backend/main.py).

The file embeds the program's core logic shallowly in Lean:
  * `chunk_text`    — the overlapping word-window chunker (main.py lines 62-75),
                      including the semantics of Python's `range(0, n, step)`
                      for zero and negative steps;
  * `extract_video_id` — the regex-based YouTube id resolver (lines 51-60),
                      modelled as a leftmost search trying the three
                      alternatives of the single pattern in order;
  * `ingest_video`  — the delete-then-insert orchestration of
                      `process_video` (lines 148-183) over an explicit list
                      of stored points standing for the vector collection;
  * `query_points`, `ask_question`, `delete_video_ep` — the retrieval,
                      answer-composition and deletion endpoints
                      (lines 199-299).
External collaborators (embedding model, cosine scoring, LLM) enter as
function parameters; the vector collection is a `List StoredPoint`.
-/

namespace VideoQA

/-! ### Python-level primitives -/

/-- A Python exception carrying its message.  `chunk_text` can only raise
`ValueError` (from `range` with a zero step), `extract_video_id` raises
`ValueError "Invalid YouTube URL"`. -/
inductive PyError where
  | valueError : String → PyError
deriving DecidableEq, Repr

/-- Python `str.split()` with no separator: split at every whitespace
character and drop the empty fragments, so runs of whitespace and
leading/trailing whitespace produce no empty words. -/
def pyWords (text : String) : List String :=
  ((text.toList.splitOnP Char.isWhitespace).map String.mk).filter (fun w => w ≠ "")

/-- Iteration of Python `range(start, stop, step)` for a positive step,
with an explicit iteration bound: since the index grows by `step ≥ 1` at
every yield, the loop yields at most `stop - start` values, so running it
with that much fuel produces the whole range (`rangeFrom` below). -/
def rangeFromFuel (step : Nat) : Nat → Nat → Nat → List Nat
  | 0, _, _ => []
  | fuel + 1, start, stop =>
    if start < stop ∧ 0 < step then start :: rangeFromFuel step fuel (start + step) stop
    else []

/-- The ascending arithmetic progression `start, start+step, …` of values
below `stop`, i.e. Python `range(start, stop, step)` for a positive step
(empty when the step is zero or negative).  Its recurrence is
`rangeFrom_eq` below. -/
def rangeFrom (start stop step : Nat) : List Nat :=
  rangeFromFuel step (stop - start) start stop

/-- Python `range(0, stop, step)` for an arbitrary integer `step`:
a zero step raises `ValueError: range() arg 3 must not be zero`; a negative
step with a non-negative stop and start `0` yields the empty range. -/
def pyRange0 (stop : Nat) (step : Int) : Except PyError (List Nat) :=
  if step = 0 then .error (.valueError "range() arg 3 must not be zero")
  else if step < 0 then .ok []
  else .ok (rangeFrom 0 stop step.toNat)

/-! ### Chunker (main.py `chunk_text`, lines 62-75) -/

/-- One element of the list returned by `chunk_text`: the dict
`{"text": chunk, "start_idx": i}`. -/
structure Chunk where
  text : String
  start_idx : Nat
deriving DecidableEq, Repr

/-- `chunk_text(text, chunk_size, overlap)`: split `text` into words, then
for each `i` in `range(0, len(words), chunk_size - overlap)` join
`words[i : i + chunk_size]` with single spaces and keep the chunk if it is
non-empty.  The `Except` propagates the `ValueError` that `range` raises
when `chunk_size - overlap == 0`. -/
def chunk_text (text : String) (chunk_size overlap : Nat) :
    Except PyError (List Chunk) :=
  let words := pyWords text
  (pyRange0 words.length ((chunk_size : Int) - (overlap : Int))).map fun idxs =>
    idxs.filterMap fun i =>
      let chunk := String.intercalate " " ((words.drop i).take chunk_size)
      if chunk = "" then none else some { text := chunk, start_idx := i }

deriving instance DecidableEq for Except

/-! ### Video identifier resolver (main.py `extract_video_id`, lines 51-60) -/

/-- Characters excluded from the capture group `[^&\n?#]+`. -/
def stopChar (c : Char) : Bool :=
  c = '&' || c = '\n' || c = '?' || c = '#'

/-- The three alternatives of the pattern
`(?:youtube\.com\/watch\?v=|youtu\.be\/|youtube\.com\/embed\/)`, in the
order the regex engine tries them at each position. -/
def vidAlternatives : List (List Char) :=
  ["youtube.com/watch?v=".toList, "youtu.be/".toList, "youtube.com/embed/".toList]

/-- Try one alternative at the current position: the literal alternative
must match and the capture `[^&\n?#]+` must grab at least one character;
the capture is the maximal run of non-stop characters. -/
def matchAlternativeAt (cs pat : List Char) : Option String :=
  if pat.isPrefixOf cs then
    let cap := (cs.drop pat.length).takeWhile (fun c => !stopChar c)
    if cap.isEmpty then none else some (String.mk cap)
  else none

/-- `re.search` semantics: scan positions left to right, and at each
position try the alternatives in order; the first success wins. -/
def searchCapture : List Char → Option String
  | [] => none
  | c :: cs =>
    match vidAlternatives.findSome? (matchAlternativeAt (c :: cs)) with
    | some v => some v
    | none => searchCapture cs

/-- `extract_video_id(url)`: return the captured group of the first match,
or raise `ValueError("Invalid YouTube URL")` when nothing matches. -/
def extract_video_id (url : String) : Except PyError String :=
  match searchCapture url.toList with
  | some v => .ok v
  | none => .error (.valueError "Invalid YouTube URL")

/-! ### Stored points and the vector collection

The Qdrant collection is modelled as the list of its points; the embedding
model, the cosine scoring of the search engine and the Groq completion are
external collaborators and enter as function parameters. -/

/-- One Qdrant point as created by `process_video` (lines 166-178): a
fresh-uuid id, the embedding vector and the payload
`{video_id, text, chunk_index, video_url}`. -/
structure StoredPoint where
  id : String
  vector : List Rat
  video_id : String
  text : String
  chunk_index : Nat
  video_url : String
deriving DecidableEq, Repr

/-- Qdrant `delete` with a `video_id` filter (lines 149-163 and 285-296):
drop every point whose payload `video_id` equals the given identifier;
deleting when nothing matches is a no-op, not an error. -/
def deleteByVideoId (store : List StoredPoint) (video_id : String) :
    List StoredPoint :=
  store.filter fun p => p.video_id ≠ video_id

/-- The points built at lines 166-178: one per pair of
`zip(chunks, embeddings)`, with `chunk_index` the zero-based position of
the pair; `ids` supplies the fresh `uuid.uuid4()` tokens. -/
def mkPoints (video_id video_url : String) (chunks : List Chunk)
    (embeddings : List (List Rat)) (ids : List String) : List StoredPoint :=
  (chunks.zip embeddings).enum.map fun p =>
    { id := ids.getD p.1 "", vector := p.2.2, video_id := video_id,
      text := p.2.1.text, chunk_index := p.1, video_url := video_url }

/-- The storage effect of `process_video` lines 148-183: delete the
existing points of the video, then upsert the freshly built points (their
ids are fresh, so the upsert adds them all). -/
def ingest_video (store : List StoredPoint) (video_id video_url : String)
    (chunks : List Chunk) (embeddings : List (List Rat)) (ids : List String) :
    List StoredPoint :=
  deleteByVideoId store video_id ++ mkPoints video_id video_url chunks embeddings ids

/-- Qdrant `query_points` with a `video_id` filter and a result `limit`
(lines 217-229): the stored points of the video ranked by descending
similarity score, truncated to `limit`.  `score` stands for the engine's
cosine similarity of a point's vector to the embedded question. -/
def query_points (store : List StoredPoint) (score : StoredPoint → Rat)
    (video_id : String) (limit : Nat) : List StoredPoint :=
  ((store.filter fun p => p.video_id = video_id).mergeSort
    fun a b => score b ≤ score a).take limit

/-! ### HTTP endpoints `/ask` and `DELETE /video/{video_id}` -/

/-- An `HTTPException(status_code, detail)`. -/
structure HTTPError where
  status_code : Nat
  detail : String
deriving DecidableEq, Repr

/-- The response model of `/ask`. -/
structure AnswerResponse where
  answer : String
  relevant_chunks : List String
deriving DecidableEq, Repr

/-- The detail message of the 404 error raised by `/ask` when the video
has no stored points (lines 231-235). -/
def noContentDetail : String :=
  "No content found for this video. Please process the video first."

/-- The system message of the Groq chat completion call (lines 253-256). -/
def systemMessage : String :=
  "You are a helpful assistant that answers questions about video content based on provided transcripts."

/-- Fixed segments of the grounding-prompt f-string (lines 242-249); the
prompt is head, then the context, then the question marker, then the
question, then the tail instruction. -/
def promptHead : String :=
  "You are a helpful assistant that answers questions about video content.\n\nContext from the video transcript:\n"

/-- The segment between the context and the question. -/
def promptMid : String := "\n\nQuestion: "

/-- The closing instruction after the question. -/
def promptTail : String :=
  "\n\nPlease provide a clear, concise answer based on the context provided. If the context doesn\x27t contain enough information to answer the question, say so."

/-- The grounding-prompt f-string at lines 242-249. -/
def buildPrompt (context question : String) : String :=
  promptHead ++ context ++ promptMid ++ question ++ promptTail

/-- `ask_question` (lines 199-279): resolve the video id (`ValueError`
maps to HTTP 400), retrieve the five highest-scoring points of that video,
return HTTP 404 when there are none, otherwise join the chunk texts in
result order with blank lines into the grounding prompt and answer with
the completion collaborator's output verbatim plus those chunks.  `llm`
stands for the Groq chat completion applied to (system message, prompt). -/
def ask_question (store : List StoredPoint) (score : StoredPoint → Rat)
    (llm : String → String → String) (video_url question : String) :
    Except HTTPError AnswerResponse :=
  match extract_video_id video_url with
  | .error (.valueError msg) => .error { status_code := 400, detail := msg }
  | .ok video_id =>
    let search_results := query_points store score video_id 5
    if search_results.isEmpty then
      .error { status_code := 404, detail := noContentDetail }
    else
      let relevant_chunks := search_results.map fun p => p.text
      let context := String.intercalate "\n\n" relevant_chunks
      .ok { answer := llm systemMessage (buildPrompt context question),
            relevant_chunks := relevant_chunks }

/-- The `DELETE /video/{video_id}` endpoint (lines 281-299): delete by
`video_id` filter — total, since Qdrant's delete-by-filter also succeeds
when nothing matches — and return the new store with the success
message. -/
def delete_video (store : List StoredPoint) (video_id : String) :
    Except HTTPError (List StoredPoint × String) :=
  .ok (deleteByVideoId store video_id,
       "Video " ++ video_id ++ " deleted successfully")

/-! ### Lemmas about `rangeFrom` -/

theorem rangeFromFuel_stop (step fuel start stop : Nat) (h : stop ≤ start) :
    rangeFromFuel step fuel start stop = [] := by
  cases fuel with
  | zero => rfl
  | succ n =>
    rw [rangeFromFuel, if_neg]
    rintro ⟨h1, -⟩
    omega

theorem rangeFromFuel_congr (step : Nat) :
    ∀ fuel₁ fuel₂ start stop, stop - start ≤ fuel₁ → stop - start ≤ fuel₂ →
      rangeFromFuel step fuel₁ start stop = rangeFromFuel step fuel₂ start stop := by
  intro fuel₁
  induction fuel₁ with
  | zero =>
    intro fuel₂ start stop h1 h2
    rw [rangeFromFuel_stop step 0 start stop (by omega),
        rangeFromFuel_stop step fuel₂ start stop (by omega)]
  | succ n ih =>
    intro fuel₂ start stop h1 h2
    cases fuel₂ with
    | zero =>
      rw [rangeFromFuel_stop step _ start stop (by omega),
          rangeFromFuel_stop step 0 start stop (by omega)]
    | succ m =>
      by_cases hc : start < stop ∧ 0 < step
      · simp only [rangeFromFuel, if_pos hc]
        congr 1
        exact ih m (start + step) stop (by omega) (by omega)
      · simp only [rangeFromFuel, if_neg hc]

theorem rangeFrom_eq (start stop step : Nat) :
    rangeFrom start stop step =
      if start < stop ∧ 0 < step then start :: rangeFrom (start + step) stop step
      else [] := by
  by_cases hc : start < stop ∧ 0 < step
  · rw [if_pos hc]
    unfold rangeFrom
    obtain ⟨h1, h2⟩ := hc
    cases hf : stop - start with
    | zero => omega
    | succ n =>
      simp only [rangeFromFuel, if_pos (And.intro h1 h2)]
      congr 1
      exact rangeFromFuel_congr step n (stop - (start + step)) (start + step) stop
        (by omega) (by omega)
  · rw [if_neg hc]
    unfold rangeFrom
    cases hf : stop - start with
    | zero => rfl
    | succ n => simp only [rangeFromFuel, if_neg hc]

theorem rangeFrom_nil (start stop step : Nat) (h : stop ≤ start) :
    rangeFrom start stop step = [] := by
  rw [rangeFrom_eq, if_neg]
  rintro ⟨h1, -⟩
  omega

theorem rangeFromFuel_length (step : Nat) :
    ∀ fuel start stop, stop - start ≤ fuel → 0 < step →
      (rangeFromFuel step fuel start stop).length = (stop - start + step - 1) / step := by
  intro fuel
  induction fuel with
  | zero =>
    intro start stop h1 hs
    have h0 : stop - start = 0 := by omega
    have e1 : (step - 1) / step = 0 := Nat.div_eq_of_lt (by omega)
    simp [rangeFromFuel, h0, e1]
  | succ n ih =>
    intro start stop h1 hs
    by_cases hc : start < stop ∧ 0 < step
    · rw [rangeFromFuel, if_pos hc, List.length_cons,
        ih (start + step) stop (by omega) hs]
      rcases Nat.lt_or_ge (start + step) stop with hd | hd
      · have heq : stop - start + step - 1 = (stop - (start + step) + step - 1) + step := by
          omega
        rw [heq, Nat.add_div_right _ hs]
      · have h0 : stop - (start + step) = 0 := by omega
        rw [h0]
        have e1 : (0 + step - 1) / step = 0 := Nat.div_eq_of_lt (by omega)
        have e2 : (stop - start + step - 1) / step = 1 :=
          Nat.div_eq_of_lt_le (by omega) (by omega)
        omega
    · rw [rangeFromFuel, if_neg hc]
      have h0 : stop - start = 0 := by omega
      have e1 : (step - 1) / step = 0 := Nat.div_eq_of_lt (by omega)
      simp [h0, e1]

theorem rangeFrom_length (start stop step : Nat) (hs : 0 < step) :
    (rangeFrom start stop step).length = (stop - start + step - 1) / step :=
  rangeFromFuel_length step (stop - start) start stop (Nat.le_refl _) hs

theorem rangeFromFuel_getElem? (step : Nat) :
    ∀ fuel start stop, stop - start ≤ fuel → ∀ k : Nat,
      (rangeFromFuel step fuel start stop)[k]? =
        if start + k * step < stop ∧ 0 < step then some (start + k * step) else none := by
  intro fuel
  induction fuel with
  | zero =>
    intro start stop h1 k
    rw [rangeFromFuel, if_neg]
    · simp
    · rintro ⟨hk, -⟩
      have := Nat.le_add_right start (k * step)
      omega
  | succ n ih =>
    intro start stop h1 k
    by_cases hc : start < stop ∧ 0 < step
    · rw [rangeFromFuel, if_pos hc]
      cases k with
      | zero => simpa using ⟨by omega, hc.2⟩
      | succ k =>
        rw [List.getElem?_cons_succ, ih (start + step) stop (by omega) k,
          show start + (k + 1) * step = start + step + k * step from by ring]
    · rw [rangeFromFuel, if_neg hc, if_neg]
      · simp
      · rintro ⟨hk, hstep⟩
        have := Nat.le_add_right start (k * step)
        omega

theorem rangeFrom_getElem? (start stop step k : Nat) :
    (rangeFrom start stop step)[k]? =
      if start + k * step < stop ∧ 0 < step then some (start + k * step) else none :=
  rangeFromFuel_getElem? step (stop - start) start stop (Nat.le_refl _) k

theorem rangeFrom_getElem (start stop step k : Nat)
    (hk : k < (rangeFrom start stop step).length) :
    (rangeFrom start stop step)[k] = start + k * step := by
  have h1 : (rangeFrom start stop step)[k]? = some ((rangeFrom start stop step)[k]) :=
    List.getElem?_eq_getElem hk
  rw [rangeFrom_getElem? start stop step k] at h1
  by_cases hc : start + k * step < stop ∧ 0 < step
  · rw [if_pos hc] at h1
    exact (Option.some.inj h1).symm
  · rw [if_neg hc] at h1
    cases h1

theorem rangeFrom_mem_lt (start stop step : Nat) :
    ∀ i ∈ rangeFrom start stop step, i < stop := by
  intro i hi
  rcases List.mem_iff_getElem?.mp hi with ⟨k, hk⟩
  rw [rangeFrom_getElem? start stop step k] at hk
  by_cases hc : start + k * step < stop ∧ 0 < step
  · rw [if_pos hc] at hk
    rcases Option.some.inj hk with rfl
    exact hc.1
  · rw [if_neg hc] at hk
    cases hk

/-! ### Lemmas about `String.intercalate` and `pyWords` -/

theorem intercalate_go_length_le (as : List String) (acc s : String) :
    acc.length ≤ (String.intercalate.go acc s as).length := by
  induction as generalizing acc with
  | nil =>
    rw [String.intercalate.go]
  | cons a as ih =>
    rw [String.intercalate.go]
    refine Nat.le_trans ?_ (ih (acc ++ s ++ a))
    simp only [String.length_append]
    omega

theorem string_eq_empty_of_length (s : String) (h : s.length = 0) : s = "" := by
  cases s with
  | mk data =>
    rw [String.length_mk, List.length_eq_zero] at h
    rw [h]

theorem intercalate_ne_empty (s a : String) (as : List String) (ha : a ≠ "") :
    String.intercalate s (a :: as) ≠ "" := by
  intro hemp
  have h1 : a.length ≤ (String.intercalate s (a :: as)).length := by
    rw [String.intercalate]
    exact intercalate_go_length_le as a s
  rw [hemp] at h1
  have h0 : ("" : String).length = 0 := rfl
  exact ha (string_eq_empty_of_length a (by omega))

theorem pyWords_all_ne (text : String) : ∀ w ∈ pyWords text, w ≠ "" := by
  intro w hw
  simpa using (List.mem_filter.mp hw).2

theorem chunk_slice_ne_empty (words : List String) (hw : ∀ w ∈ words, w ≠ "")
    (chunk_size i : Nat) (hc : 0 < chunk_size) (hi : i < words.length) :
    String.intercalate " " ((words.drop i).take chunk_size) ≠ "" := by
  have hlen : 0 < ((words.drop i).take chunk_size).length := by
    rw [List.length_take, List.length_drop]
    omega
  cases hsl : (words.drop i).take chunk_size with
  | nil => rw [hsl] at hlen; simp at hlen
  | cons a as =>
    have ha : a ∈ words := by
      have hmem : a ∈ (words.drop i).take chunk_size := by
        rw [hsl]; exact List.mem_cons_self a as
      exact List.mem_of_mem_drop (List.mem_of_mem_take hmem)
    exact intercalate_ne_empty " " a as (hw a ha)

/-! ### Normal form of `chunk_text` for a valid configuration -/

theorem filterMap_eq_map_of_some {α β : Type} (l : List α) (f : α → Option β) (g : α → β)
    (h : ∀ x ∈ l, f x = some (g x)) : l.filterMap f = l.map g := by
  induction l with
  | nil => rfl
  | cons a l ih =>
    simp only [List.filterMap_cons, h a (List.mem_cons_self a l), List.map_cons]
    rw [ih (fun x hx => h x (List.mem_cons_of_mem a hx))]

theorem chunk_text_eq (text : String) (C O : Nat) (h : O < C) :
    chunk_text text C O =
      Except.ok ((rangeFrom 0 (pyWords text).length (C - O)).map
        (fun i => { text := String.intercalate " " (((pyWords text).drop i).take C),
                    start_idx := i })) := by
  have hz : ¬((C : Int) - (O : Int) = 0) := by omega
  have hneg : ¬((C : Int) - (O : Int) < 0) := by omega
  have ht : ((C : Int) - (O : Int)).toNat = C - O := by omega
  simp only [chunk_text, pyRange0, if_neg hz, if_neg hneg, Except.map, ht]
  congr 1
  apply filterMap_eq_map_of_some
  intro i hi
  have hiN : i < (pyWords text).length := rangeFrom_mem_lt _ _ _ i hi
  have hne := chunk_slice_ne_empty (pyWords text) (pyWords_all_ne text) C i (by omega) hiN
  simp [hne]

/-! ### Claim theorems: chunker and resolver -/

/-- C2, counterexample: the 5-word text "a b c d e" with chunk_size 3 and
overlap 1 yields 3 chunks, while the claimed count formula
`ceil(max(N - O, 0) / (C - O))` — in natural-number arithmetic
`(N - O + (C - O) - 1) / (C - O)`, here `ceil(4 / 2)` — gives 2. -/
theorem C2_counterexample :
    Except.map List.length (chunk_text "a b c d e" 3 1) = Except.ok 3 ∧
    (5 - 1 + (3 - 1) - 1) / (3 - 1) = 2 ∧ (3 : Nat) ≠ 2 :=
  ⟨by decide, by decide, by decide⟩

/-- C2, amended: for every text of N words (N > 0), chunk_size C and
overlap O with O < C, the chunker returns `ceil(N / (C - O))` chunks
(`(N + (C - O) - 1) / (C - O)` in natural-number arithmetic): the trailing
windows that start inside the final overlap region are kept, so the
numerator is N rather than `max(N - O, 0)`. -/
theorem C2_chunk_count (text : String) (C O : Nat) (h : O < C)
    (_hN : 0 < (pyWords text).length) :
    Except.map List.length (chunk_text text C O) =
      Except.ok (((pyWords text).length + (C - O) - 1) / (C - O)) := by
  rw [chunk_text_eq text C O h]
  simp only [Except.map, List.length_map]
  rw [rangeFrom_length 0 (pyWords text).length (C - O) (by omega), Nat.sub_zero]

/-- C2, witness: the amended count theorem applied to "a b c d e" with
chunk_size 3 and overlap 1 gives `ceil(5 / 2) = 3` chunks. -/
theorem C2_chunk_count_witness :
    1 < 3 ∧ 0 < (pyWords "a b c d e").length ∧
    Except.map List.length (chunk_text "a b c d e" 3 1) =
      Except.ok (((pyWords "a b c d e").length + (3 - 1) - 1) / (3 - 1)) :=
  ⟨by decide, by decide, C2_chunk_count "a b c d e" 3 1 (by decide) (by decide)⟩

/-- C3: for O < C the k-th chunk of the chunker's output starts at word
offset `k * (C - O)`: the first chunk starts at offset 0 and each chunk
after the first starts exactly `C - O` words after the previous one. -/
theorem C3_constant_stride (text : String) (C O : Nat) (h : O < C)
    (l : List Chunk) (hl : chunk_text text C O = Except.ok l)
    (k : Nat) (hk : k < l.length) :
    (l.get ⟨k, hk⟩).start_idx = k * (C - O) := by
  have he := chunk_text_eq text C O h
  rw [hl] at he
  have hle := Except.ok.inj he
  subst hle
  have hk' : k < (rangeFrom 0 (pyWords text).length (C - O)).length := by
    simpa using hk
  simp only [List.get_eq_getElem, List.getElem_map]
  show (rangeFrom 0 (pyWords text).length (C - O))[k] = k * (C - O)
  rw [rangeFrom_getElem 0 (pyWords text).length (C - O) k hk']
  omega

/-- C3, witness: on "the cat sat on the mat" with chunk_size 3 and
overlap 1 the chunk at position 1 starts at offset `1 * (3 - 1) = 2`. -/
theorem C3_constant_stride_witness :
    1 < 3 ∧
    chunk_text "the cat sat on the mat" 3 1 =
      Except.ok [{ text := "the cat sat", start_idx := 0 },
                 { text := "sat on the", start_idx := 2 },
                 { text := "the mat", start_idx := 4 }] ∧
    (([{ text := "the cat sat", start_idx := 0 },
       { text := "sat on the", start_idx := 2 },
       { text := "the mat", start_idx := 4 }] : List Chunk).get
        ⟨1, by decide⟩).start_idx = 1 * (3 - 1) :=
  ⟨by decide, by decide,
   C3_constant_stride "the cat sat on the mat" 3 1 (by decide) _ (by decide) 1 (by decide)⟩

/-- C4, counterexample: with chunk_size 1 and overlap 2 (overlap strictly
greater than chunk_size) the chunker signals nothing: the stride is
negative, Python `range(0, 3, -1)` is empty, and `chunk_text` returns the
empty chunk list as a normal result. -/
theorem C4_counterexample : chunk_text "a b c" 1 2 = Except.ok [] := by decide

/-- C4, amended: for every text, when overlap equals chunk_size the
chunker raises the `ValueError` coming from `range` with a zero step, and
when overlap exceeds chunk_size it returns the empty chunk list without
signalling; in neither case does it loop indefinitely. -/
theorem C4_invalid_configuration (text : String) (C O : Nat) (h : C ≤ O) :
    chunk_text text C O =
      if C = O then Except.error (PyError.valueError "range() arg 3 must not be zero")
      else Except.ok [] := by
  by_cases he : C = O
  · rw [if_pos he]
    have hz : (C : Int) - (O : Int) = 0 := by omega
    simp [chunk_text, pyRange0, hz, Except.map]
  · rw [if_neg he]
    have hz : ¬((C : Int) - (O : Int) = 0) := by omega
    have hneg : (C : Int) - (O : Int) < 0 := by omega
    simp [chunk_text, pyRange0, hz, hneg, Except.map]

/-- C4, witness: equal chunk_size and overlap (2 and 2) raise the range
`ValueError` on a concrete text. -/
theorem C4_invalid_configuration_witness :
    2 ≤ 2 ∧
    chunk_text "a b c" 2 2 =
      (if 2 = 2 then Except.error (PyError.valueError "range() arg 3 must not be zero")
       else Except.ok []) :=
  ⟨Nat.le_refl 2, C4_invalid_configuration "a b c" 2 2 (Nat.le_refl 2)⟩

/-- C5, counterexample: chunking "the cat sat on the mat" with
chunk_size 3 and overlap 1 gives the three chunks at offsets 0, 2, 4 shown
in the first conjunct, not the claimed four-chunk list at offsets
0, 2, 4, 6 — `range(0, 6, 2)` stops before 6, and the window at offset 4
is `words[4:7] = "the mat"`. -/
theorem C5_counterexample :
    chunk_text "the cat sat on the mat" 3 1 =
      Except.ok [{ text := "the cat sat", start_idx := 0 },
                 { text := "sat on the", start_idx := 2 },
                 { text := "the mat", start_idx := 4 }] ∧
    chunk_text "the cat sat on the mat" 3 1 ≠
      Except.ok [{ text := "the cat sat", start_idx := 0 },
                 { text := "sat on the", start_idx := 2 },
                 { text := "on the mat", start_idx := 4 },
                 { text := "the mat", start_idx := 6 }] :=
  ⟨by decide, by decide⟩

/-- C5, amended: chunking "the cat sat on the mat" with chunk_size 3 and
overlap 1 produces exactly the chunks "the cat sat", "sat on the",
"the mat" with start offsets 0, 2, 4, in that order. -/
theorem C5_end_to_end :
    chunk_text "the cat sat on the mat" 3 1 =
      Except.ok [{ text := "the cat sat", start_idx := 0 },
                 { text := "sat on the", start_idx := 2 },
                 { text := "the mat", start_idx := 4 }] := by decide

/-- C6: the standard watch URL, the short-link form and the embed form all
resolve to "abc123", and a non-URL input raises
`ValueError("Invalid YouTube URL")`. -/
theorem C6_identifier_resolution :
    extract_video_id "https://www.youtube.com/watch?v=abc123" = Except.ok "abc123" ∧
    extract_video_id "https://youtu.be/abc123" = Except.ok "abc123" ∧
    extract_video_id "https://www.youtube.com/embed/abc123" = Except.ok "abc123" ∧
    extract_video_id "not a url" = Except.error (PyError.valueError "Invalid YouTube URL") :=
  ⟨by decide, by decide, by decide, by decide⟩

/-- C10: for O < C every chunk the chunker returns has as text the
single-space join of the `C`-word window of the word list at its start
index (truncated at the end), that text is non-empty, and the start index
is below the word count; moreover every word position of the input is
covered by some chunk's window. -/
theorem C10_chunk_coherence (text : String) (C O : Nat) (h : O < C)
    (l : List Chunk) (hl : chunk_text text C O = Except.ok l) :
    (∀ ch ∈ l,
      ch.text = String.intercalate " " (((pyWords text).drop ch.start_idx).take C) ∧
      ch.text ≠ "" ∧ ch.start_idx < (pyWords text).length) ∧
    (∀ j, j < (pyWords text).length →
      ∃ ch ∈ l, ch.start_idx ≤ j ∧ j < ch.start_idx + C) := by
  have he := chunk_text_eq text C O h
  rw [hl] at he
  have hle := Except.ok.inj he
  subst hle
  constructor
  · intro ch hch
    rcases List.mem_map.mp hch with ⟨i, hi, rfl⟩
    exact ⟨rfl,
      chunk_slice_ne_empty (pyWords text) (pyWords_all_ne text) C i (by omega)
        (rangeFrom_mem_lt _ _ _ i hi),
      rangeFrom_mem_lt _ _ _ i hi⟩
  · intro j hj
    have hspos : 0 < C - O := by omega
    have hdm := Nat.div_add_mod j (C - O)
    have hmod : j % (C - O) < C - O := Nat.mod_lt j hspos
    have hcomm : (j / (C - O)) * (C - O) = (C - O) * (j / (C - O)) := Nat.mul_comm _ _
    have hmem : (0 + (j / (C - O)) * (C - O)) ∈
        rangeFrom 0 (pyWords text).length (C - O) := by
      apply List.mem_iff_getElem?.mpr
      refine ⟨j / (C - O), ?_⟩
      rw [rangeFrom_getElem?, if_pos ⟨by omega, hspos⟩]
    refine ⟨_, List.mem_map_of_mem _ hmem, ?_, ?_⟩
    · show 0 + (j / (C - O)) * (C - O) ≤ j
      omega
    · show j < 0 + (j / (C - O)) * (C - O) + C
      omega

/-- C10, witness: coherence instantiated on "the cat sat on the mat" with
chunk_size 3, overlap 1, and word position 5 ("mat"), which is covered by
the chunk starting at offset 4. -/
theorem C10_chunk_coherence_witness :
    1 < 3 ∧
    chunk_text "the cat sat on the mat" 3 1 =
      Except.ok [{ text := "the cat sat", start_idx := 0 },
                 { text := "sat on the", start_idx := 2 },
                 { text := "the mat", start_idx := 4 }] ∧
    (5 < (pyWords "the cat sat on the mat").length →
      ∃ ch ∈ ([{ text := "the cat sat", start_idx := 0 },
               { text := "sat on the", start_idx := 2 },
               { text := "the mat", start_idx := 4 }] : List Chunk),
        ch.start_idx ≤ 5 ∧ 5 < ch.start_idx + 3) :=
  ⟨by decide, by decide,
   (C10_chunk_coherence "the cat sat on the mat" 3 1 (by decide) _ (by decide)).2 5⟩

/-! ### Claim theorems: index orchestration and endpoints -/

/-- C1: ingesting video X with chunk set A and then re-ingesting with
chunk set B (embedding batch of B's length) leaves exactly the points
built from B stored under X: A's points are gone, there is one point per
(chunk, vector) pair of B, and the k-th point carries chunk_index k and
B's k-th chunk text. -/
theorem C1_replace_semantics (store : List StoredPoint) (X urlA urlB : String)
    (A B : List Chunk) (vA vB : List (List Rat)) (idsA idsB : List String)
    (hlen : vB.length = B.length) :
    ((ingest_video (ingest_video store X urlA A vA idsA) X urlB B vB idsB).filter
        fun p => p.video_id = X) = mkPoints X urlB B vB idsB ∧
    (mkPoints X urlB B vB idsB).length = B.length ∧
    (∀ (k : Nat) (hk : k < (mkPoints X urlB B vB idsB).length),
      ((mkPoints X urlB B vB idsB).get ⟨k, hk⟩).chunk_index = k ∧
      ((mkPoints X urlB B vB idsB).get ⟨k, hk⟩).text =
        (B.getD k { text := "", start_idx := 0 }).text) := by
  have hmk : ∀ p ∈ mkPoints X urlB B vB idsB, p.video_id = X := by
    intro p hp
    rcases List.mem_map.mp hp with ⟨q, hq, rfl⟩
    rfl
  have hlength : (mkPoints X urlB B vB idsB).length = B.length := by
    unfold mkPoints
    rw [List.length_map, List.enum_eq_enumFrom, List.enumFrom_length, List.length_zip,
      hlen]
    omega
  refine ⟨?_, hlength, ?_⟩
  · unfold ingest_video
    rw [List.filter_append]
    have h1 : ∀ s : List StoredPoint,
        (deleteByVideoId s X).filter (fun p => p.video_id = X) = [] := by
      intro s
      rw [List.filter_eq_nil_iff]
      intro p hp
      have h2 := (List.mem_filter.mp hp).2
      simp only [decide_eq_true_eq] at h2 ⊢
      exact h2
    have h2 : (mkPoints X urlB B vB idsB).filter (fun p => p.video_id = X) =
        mkPoints X urlB B vB idsB := by
      rw [List.filter_eq_self]
      intro p hp
      simpa using hmk p hp
    rw [h1 _, h2, List.nil_append]
  · intro k hk
    have hkB : k < B.length := by omega
    have hkzip : k < (B.zip vB).length := by
      rw [List.length_zip, hlen]
      omega
    have hkenum : k < ((B.zip vB).enum).length := by
      rw [List.enum_eq_enumFrom, List.enumFrom_length]
      exact hkzip
    unfold mkPoints
    simp only [List.get_eq_getElem, List.getElem_map, List.enum_eq_enumFrom,
      List.getElem_enumFrom, List.getElem_zip]
    refine ⟨by omega, ?_⟩
    show (B[k]).text = (B.getD k { text := "", start_idx := 0 }).text
    rw [List.getD_eq_getElem?_getD, List.getElem?_eq_getElem hkB]
    rfl

/-- C1, witness: re-ingesting "vid" with a two-chunk set B after a
one-chunk set A leaves exactly B's two points, with chunk indices 0, 1 and
B's texts. -/
theorem C1_replace_semantics_witness :
    ([(2 : Rat)], [(3 : Rat)]).1.length = 1 ∧
    (((ingest_video (ingest_video [] "vid" "uA"
          [{ text := "alpha", start_idx := 0 }] [[(1 : Rat)]] ["a"])
        "vid" "uB"
        [{ text := "beta", start_idx := 0 }, { text := "gamma", start_idx := 2 }]
        [[(2 : Rat)], [(3 : Rat)]] ["b", "c"]).filter
          fun p => p.video_id = "vid") =
      mkPoints "vid" "uB"
        [{ text := "beta", start_idx := 0 }, { text := "gamma", start_idx := 2 }]
        [[(2 : Rat)], [(3 : Rat)]] ["b", "c"] ∧
     (mkPoints "vid" "uB"
        [{ text := "beta", start_idx := 0 }, { text := "gamma", start_idx := 2 }]
        [[(2 : Rat)], [(3 : Rat)]] ["b", "c"]).length =
       ([{ text := "beta", start_idx := 0 }, { text := "gamma", start_idx := 2 }] :
         List Chunk).length) :=
  ⟨rfl,
   (C1_replace_semantics [] "vid" "uA" "uB"
      [{ text := "alpha", start_idx := 0 }]
      [{ text := "beta", start_idx := 0 }, { text := "gamma", start_idx := 2 }]
      [[(1 : Rat)]] [[(2 : Rat)], [(3 : Rat)]] ["a"] ["b", "c"] rfl).1,
   (C1_replace_semantics [] "vid" "uA" "uB"
      [{ text := "alpha", start_idx := 0 }]
      [{ text := "beta", start_idx := 0 }, { text := "gamma", start_idx := 2 }]
      [[(1 : Rat)]] [[(2 : Rat)], [(3 : Rat)]] ["a"] ["b", "c"] rfl).2.1⟩

/-- C7: for a video identifier with no stored points the filtered
similarity query returns the empty result — not an error — and `/ask` on a
URL resolving to that identifier returns the 404 not-found error. -/
theorem C7_no_content (store : List StoredPoint)
    (video_url video_id question : String) (score : StoredPoint → Rat)
    (llm : String → String → String) (limit : Nat)
    (hid : extract_video_id video_url = Except.ok video_id)
    (hempty : store.filter (fun p => p.video_id = video_id) = []) :
    query_points store score video_id limit = [] ∧
    ask_question store score llm video_url question =
      Except.error { status_code := 404, detail := noContentDetail } := by
  have hq : ∀ lim : Nat, query_points store score video_id lim = [] := by
    intro lim
    unfold query_points
    rw [hempty]
    simp
  refine ⟨hq limit, ?_⟩
  unfold ask_question
  rw [hid]
  simp [hq 5]

/-- C7, witness: the empty store has no points for "abc123", and asking
about "https://youtu.be/abc123" returns the 404 error. -/
theorem C7_no_content_witness :
    extract_video_id "https://youtu.be/abc123" = Except.ok "abc123" ∧
    List.filter (fun p => p.video_id = "abc123") ([] : List StoredPoint) = [] ∧
    (query_points [] (fun _ => 0) "abc123" 5 = [] ∧
     ask_question [] (fun _ => 0) (fun _ _ => "") "https://youtu.be/abc123" "q" =
       Except.error { status_code := 404, detail := noContentDetail }) :=
  ⟨by decide, rfl,
   C7_no_content [] "https://youtu.be/abc123" "abc123" "q" (fun _ => 0) (fun _ _ => "") 5
     (by decide) rfl⟩

/-- C8: deletion succeeds for every video identifier — also one with no
stored points, since delete-by-filter tolerates an empty match — returning
the success message, and afterwards no point with that identifier
remains. -/
theorem C8_idempotent_delete (store : List StoredPoint) (video_id : String) :
    ∃ rest : List StoredPoint,
      delete_video store video_id =
        Except.ok (rest, "Video " ++ video_id ++ " deleted successfully") ∧
      rest.filter (fun p => p.video_id = video_id) = [] := by
  refine ⟨deleteByVideoId store video_id, rfl, ?_⟩
  rw [List.filter_eq_nil_iff]
  intro p hp
  have h2 := (List.mem_filter.mp hp).2
  simp only [decide_eq_true_eq] at h2 ⊢
  simpa using h2

/-- C9: for a non-empty retrieval result the answer endpoint builds the
one grounding prompt — fixed head, the retrieved chunk texts joined by
blank lines in result order, the question marker, the question, the fixed
tail — and returns the completion collaborator's output verbatim together
with those chunk texts in the same order. -/
theorem C9_grounding_prompt (store : List StoredPoint)
    (video_url video_id question : String) (score : StoredPoint → Rat)
    (llm : String → String → String) (results : List StoredPoint)
    (hid : extract_video_id video_url = Except.ok video_id)
    (hq : query_points store score video_id 5 = results)
    (hne : results ≠ []) :
    buildPrompt (String.intercalate "\n\n" (results.map fun p => p.text)) question =
      promptHead ++ String.intercalate "\n\n" (results.map fun p => p.text) ++
        promptMid ++ question ++ promptTail ∧
    ask_question store score llm video_url question =
      Except.ok { answer := llm systemMessage (buildPrompt
                    (String.intercalate "\n\n" (results.map fun p => p.text)) question),
                  relevant_chunks := results.map fun p => p.text } := by
  refine ⟨rfl, ?_⟩
  have hfalse : (query_points store score video_id 5).isEmpty = false := by
    rw [hq, List.isEmpty_eq_false]
    exact hne
  have hfalse2 : results.isEmpty = false := by
    rw [← hq]
    exact hfalse
  unfold ask_question
  rw [hid]
  simp only [hfalse, hq, hfalse2, Bool.false_eq_true, if_false]

/-- C9, witness: with one stored point for "abc123" the `/ask` endpoint
returns the collaborator's output on the grounding prompt built from that
point's text, plus the text itself. -/
theorem C9_grounding_prompt_witness :
    extract_video_id "https://youtu.be/abc123" = Except.ok "abc123" ∧
    query_points
      [{ id := "1", vector := [], video_id := "abc123", text := "hello world",
         chunk_index := 0, video_url := "u" }] (fun _ => 0) "abc123" 5 =
      [{ id := "1", vector := [], video_id := "abc123", text := "hello world",
         chunk_index := 0, video_url := "u" }] ∧
    ask_question
      [{ id := "1", vector := [], video_id := "abc123", text := "hello world",
         chunk_index := 0, video_url := "u" }] (fun _ => 0) (fun _ p => p)
      "https://youtu.be/abc123" "q" =
      Except.ok { answer := buildPrompt (String.intercalate "\n\n"
                    (([{ id := "1", vector := [], video_id := "abc123",
                         text := "hello world", chunk_index := 0, video_url := "u" }] :
                      List StoredPoint).map fun p => p.text)) "q",
                  relevant_chunks :=
                    ([{ id := "1", vector := [], video_id := "abc123",
                        text := "hello world", chunk_index := 0, video_url := "u" }] :
                      List StoredPoint).map fun p => p.text } := by
  have hq : query_points
      [{ id := "1", vector := [], video_id := "abc123", text := "hello world",
         chunk_index := 0, video_url := "u" }] (fun _ => 0) "abc123" 5 =
      [{ id := "1", vector := [], video_id := "abc123", text := "hello world",
         chunk_index := 0, video_url := "u" }] := by
    unfold query_points
    simp
  exact ⟨by decide, hq,
    (C9_grounding_prompt _ "https://youtu.be/abc123" "abc123" "q" (fun _ => 0)
      (fun _ p => p) _ (by decide) hq (by simp)).2⟩

end VideoQA
